import Mathlib

/-
Verification of the Kikapu Naturals synthetic-dataset generator
(src/kikapu.py) against its natural-language specification.

Shallow embedding conventions:
* Python floats carrying monetary values are modelled as exact rationals
  (ℚ); Python's round(x, 2) (round-half-to-even on the scaled value) is
  modelled by round2 below.
* Instants (datetime values) are modelled as rational day numbers, with
  day 0 = 2022-01-01.  timedelta.days is Int.floor of the day difference,
  matching Python's floor-towards-minus-infinity semantics.  Day constants:
  2024-11-30 = 1064, 2023-01-01 = 365, 2021-06-01 = -214.
* The single shared pseudo-random stream (Python's seeded global random
  module) is modelled as a function s : ℕ → ℚ giving the successive
  outcomes of random.random(); generation threads an index k into the
  stream, consuming one draw per primitive call (random.random, randint).
  Valid s states the contract of random.random: every draw is in [0, 1).
* Nullable CSV columns are Option-valued.
-/

namespace Kikapu

/-- Round a rational to the nearest integer, ties to even (Python's
bankers rounding). -/
def rne (x : ℚ) : ℤ :=
  if x - ⌊x⌋ < 1/2 then ⌊x⌋
  else if 1/2 < x - ⌊x⌋ then ⌊x⌋ + 1
  else if ⌊x⌋ % 2 = 0 then ⌊x⌋ else ⌊x⌋ + 1

/-- Python's round(x, 2) on exact rationals.  Caveat of the
idealization: the program computes on binary doubles, which are never
equal to an exact half-cent (a non-dyadic rational k/200 with k odd),
so the tie-to-even branch of rne is reachable here on exact values the
real computation only approximates; properties that hinge on behavior
exactly at a half-cent tie are therefore outside this model. -/
def round2 (x : ℚ) : ℚ := (rne (x * 100) : ℚ) / 100

/-- x is a whole number of cents (two decimal places). -/
def Cents (x : ℚ) : Prop := ∃ n : ℤ, x * 100 = (n : ℚ)

/-- x is an even whole number of cents. -/
def EvenCents (x : ℚ) : Prop := ∃ n : ℤ, x * 100 = ((2 * n : ℤ) : ℚ)

/-- The random stream: s n is the n-th outcome of random.random(). -/
def Valid (s : ℕ → ℚ) : Prop := ∀ n, 0 ≤ s n ∧ s n < 1

/-- random.randint(a, b): both endpoints inclusive; consumes one draw. -/
def randint (s : ℕ → ℚ) (a b : ℤ) (k : ℕ) : ℤ × ℕ :=
  (a + ⌊s k * ((b - a + 1 : ℤ) : ℚ)⌋, k + 1)

/-- The subtract-and-scan loop of KikapuDataGenerator.weighted_random:
walk the weights, return the first index whose weight exceeds the
remaining draw, else the fallback. -/
def wrGo (rand : ℚ) (ws : List ℕ) (i : ℕ) (fb : ℤ) : ℤ :=
  match ws with
  | [] => fb
  | w :: rest => if rand < (w : ℚ) then (i : ℤ) else wrGo (rand - (w : ℚ)) rest (i + 1) fb

/-- KikapuDataGenerator.weighted_random: scale a uniform draw u by the
total weight and scan; the fallback after exhausting the sequence is
len(weights) - 1. -/
def weighted_random (u : ℚ) (weights : List ℕ) : ℤ :=
  wrGo (u * (weights.sum : ℚ)) weights 0 ((weights.length : ℤ) - 1)

/-- A weighted_random call inside the generator: consumes one draw. -/
def weightedDraw (s : ℕ → ℚ) (weights : List ℕ) (k : ℕ) : ℤ × ℕ :=
  (weighted_random (s k) weights, k + 1)

/-- KikapuDataGenerator.random_date: start + random() * (end - start).days
days, where timedelta.days floors. -/
def random_date (s : ℕ → ℚ) (startD endD : ℚ) (k : ℕ) : ℚ × ℕ :=
  (startD + s k * ((⌊endD - startD⌋ : ℤ) : ℚ), k + 1)

/-- Python list indexing l[i] (call sites only ever produce indices in
range; a negative index cannot arise at any call site because every
weight list passed is nonempty, so the fallback is its length - 1 ≥ 0). -/
def pyGet {α : Type} (l : List α) (i : ℤ) (d : α) : α := l.getD i.toNat d

/-- Zero-padded decimal formatting, Python's f-string {n:0wd}. -/
def zpad (w : ℕ) (n : ℕ) : String :=
  String.mk (List.replicate (w - (toString n).length) '0') ++ toString n

/-- Product record (kikapu_products row); prices and costs in ℚ dollars. -/
structure Product where
  product_id : String
  category : String
  name : String
  unit_price : ℚ
  avg_cogs : ℚ
  active_since : String
deriving DecidableEq, Repr

/-- The fixed 10-product catalog of generate_products. -/
def products : List Product :=
  [⟨"P001", "Beverage", "Organic Green Tea", 1899/100, 850/100, "2021-03-01"⟩,
   ⟨"P002", "Beverage", "Herbal Wellness Blend", 2299/100, 1020/100, "2021-06-15"⟩,
   ⟨"P003", "Snack", "Superfood Energy Bars", 2499/100, 1200/100, "2021-01-10"⟩,
   ⟨"P004", "Snack", "Organic Trail Mix", 1599/100, 780/100, "2021-08-01"⟩,
   ⟨"P005", "Supplement", "Vitamin D3 Gummies", 2999/100, 1450/100, "2022-01-01"⟩,
   ⟨"P006", "Supplement", "Probiotic Blend", 3499/100, 1680/100, "2022-03-15"⟩,
   ⟨"P007", "Personal Care", "Natural Face Serum", 3999/100, 1800/100, "2022-06-01"⟩,
   ⟨"P008", "Personal Care", "Organic Body Lotion", 2699/100, 1250/100, "2022-08-10"⟩,
   ⟨"P009", "Beverage", "Detox Tea Collection", 3299/100, 1500/100, "2023-01-05"⟩,
   ⟨"P010", "Snack", "Keto-Friendly Crackers", 1999/100, 950/100, "2023-04-20"⟩]

/-- Default for product indexing (the index drawn by randint(0, 9) is
always in range whenever the draw is in [0, 1), so this value is never
produced by an in-contract run; it is the first catalog row). -/
def prodDefault : Product :=
  ⟨"P001", "Beverage", "Organic Green Tea", 1899/100, 850/100, "2021-03-01"⟩

/-- Day number of 2024-11-30 (end of the generation window). -/
def winEnd : ℚ := 1064

/-- Day number of 2022-01-01 (start of the D2C acquisition window). -/
def d2cStart : ℚ := 0

/-- Day number of 2021-06-01 (start of the B2B acquisition window). -/
def b2bStart : ℚ := -214

/-- Day number of 2023-01-01, the fallback acquisition date used for
order-date math when the stored acquisition date is null. -/
def fallbackAcq : ℤ := 365

/-- Customer record (kikapu_customers row); acquisition_date is the
stored (strftime-truncated, possibly nulled) day number. -/
structure Customer where
  customer_id : String
  segment : String
  acquisition_date : Option ℤ
  channel : Option String
  country : String
  status : String
  company_name : Option String
  account_tier : Option String
deriving DecidableEq, Repr

def channels : List String :=
  ["Paid Ads", "Organic Social", "Email", "Referral", "SEO", "Sales"]

def countries : List String := ["US", "UK", "CA", "AU", "DE"]

def statuses : List String := ["Active", "Churned", "At Risk"]

def tiers : List String := ["Enterprise", "Mid-Market", "SMB"]

/-- One D2C customer: draw acquisition date, then status (weights tiered
by raw cohort age), then channel, then country, then the two
null-injection coins (2% acquisition date, 1% channel). -/
def genD2CCustomer (s : ℕ → ℚ) (i : ℕ) (k : ℕ) : Customer × ℕ :=
  let rd := random_date s d2cStart winEnd k
  let acqRaw := rd.1
  let daysSince : ℤ := ⌊winEnd - acqRaw⌋
  let sIdx : ℤ :=
    if daysSince < 90 then weighted_random (s rd.2) [80, 15, 5]
    else if daysSince < 365 then weighted_random (s rd.2) [60, 30, 10]
    else weighted_random (s rd.2) [40, 50, 10]
  let chIdx := weighted_random (s (rd.2 + 1)) [30, 25, 15, 12, 15, 3]
  let coIdx := weighted_random (s (rd.2 + 2)) [50, 20, 15, 10, 5]
  let c1 := s (rd.2 + 3)
  let c2 := s (rd.2 + 4)
  ({ customer_id := "C" ++ zpad 6 i
     segment := "D2C"
     acquisition_date := if c1 < 2/100 then none else some ⌊acqRaw⌋
     channel := if c2 < 1/100 then none else some (pyGet channels chIdx ("Sales"))
     country := pyGet countries coIdx ("US")
     status := pyGet statuses sIdx ("Active")
     company_name := none
     account_tier := none }, rd.2 + 5)

/-- One B2B customer: acquisition date from the wider window, channel
fixed to Sales, status Active, B2B country weights, account tier draw. -/
def genB2BCustomer (s : ℕ → ℚ) (i : ℕ) (k : ℕ) : Customer × ℕ :=
  let rd := random_date s b2bStart winEnd k
  let cod := weightedDraw s [40, 30, 15, 10, 5] rd.2
  let td := weightedDraw s [20, 50, 30] cod.2
  ({ customer_id := "B" ++ zpad 5 i
     segment := "B2B"
     acquisition_date := some ⌊rd.1⌋
     channel := some ("Sales")
     country := pyGet countries cod.1 ("US")
     status := "Active"
     company_name := some ("Business Customer " ++ toString i)
     account_tier := some (pyGet tiers td.1 ("SMB")) }, td.2)

/-- The D2C loop of generate_customers (i runs 1, 2, ...). -/
def genD2CList (s : ℕ → ℚ) : ℕ → ℕ → ℕ → List Customer × ℕ
  | 0, _, k => ([], k)
  | Nat.succ n, i, k =>
    let r := genD2CCustomer s i k
    let rest := genD2CList s n (i + 1) r.2
    (r.1 :: rest.1, rest.2)

/-- The B2B loop of generate_customers. -/
def genB2BList (s : ℕ → ℚ) : ℕ → ℕ → ℕ → List Customer × ℕ
  | 0, _, k => ([], k)
  | Nat.succ n, i, k =>
    let r := genB2BCustomer s i k
    let rest := genB2BList s n (i + 1) r.2
    (r.1 :: rest.1, rest.2)

/-- KikapuDataGenerator.generate_customers: D2C population then B2B
population, concatenated in generation order. -/
def generate_customers (s : ℕ → ℚ) (num_d2c num_b2b : ℕ) (k : ℕ) :
    List Customer × ℕ :=
  let d2c := genD2CList s num_d2c 1 k
  let b2b := genB2BList s num_b2b 1 d2c.2
  (d2c.1 ++ b2b.1, b2b.2)

/-- Order record (kikapu_orders row); monetary fields are the persisted
(rounded) values, total_cogs and profit are nullable. -/
structure Order where
  order_id : String
  customer_id : String
  order_date : Option ℤ
  subtotal : ℚ
  discount_percent : ℤ
  discount_amount : ℚ
  revenue : ℚ
  total_cogs : Option ℚ
  profit : Option ℚ
  num_items : ℕ
deriving DecidableEq, Repr

/-- Line-item record (kikapu_order_line_items row).  cogs and profit are
nullable columns of the output table; the generator always assigns them
a value (see claim C9). -/
structure LineItem where
  line_item_id : String
  order_id : String
  customer_id : String
  product_id : String
  product_name : String
  category : String
  quantity : ℤ
  unit_price : ℚ
  subtotal : ℚ
  discount_amount : ℚ
  revenue : ℚ
  cogs : Option ℚ
  profit : Option ℚ
  order_date : Option ℤ
deriving DecidableEq, Repr

/-- Raw (unrounded) order subtotal: sum of unit_price * quantity. -/
def itemsSub (items : List (Product × ℤ)) : ℚ :=
  (items.map fun it => it.1.unit_price * (it.2 : ℚ)).sum

/-- Raw (unrounded) order COGS: sum of avg_cogs * quantity. -/
def itemsCogs (items : List (Product × ℤ)) : ℚ :=
  (items.map fun it => it.1.avg_cogs * (it.2 : ℚ)).sum

/-- The per-item quantity draw: randint(10, 60) for B2B, randint(1, 3)
for D2C (one draw consumed either way). -/
def qtyDraw (s : ℕ → ℚ) (isB2B : Bool) (k : ℕ) : ℤ :=
  if isB2B then (randint s 10 60 k).1 else (randint s 1 3 k).1

/-- The item-selection loop: per item one product-index draw
(randint(0, 9)) and one quantity draw, with replacement. -/
def genItems (s : ℕ → ℚ) (isB2B : Bool) : ℕ → ℕ → List (Product × ℤ) × ℕ
  | 0, k => ([], k)
  | Nat.succ n, k =>
    let pd := randint s 0 ((products.length : ℤ) - 1) k
    let p := pyGet products pd.1 prodDefault
    let q := qtyDraw s isB2B pd.2
    let rest := genItems s isB2B n (pd.2 + 1)
    ((p, q) :: rest.1, rest.2)

/-- The line-item emission loop (enumerate(selected_products, 1)): each
item's discount is its share of the raw subtotal times the raw discount
amount; revenue, cogs, profit derived; all stored fields rounded; the
order's (possibly null) date inherited. -/
def mkLineItems (oidStr custId : String) (subtotal discount_amount : ℚ)
    (odate : Option ℤ) (oid : ℕ) : List (Product × ℤ) → ℕ → List LineItem
  | [], _ => []
  | (p, q) :: rest, j =>
    let item_subtotal := p.unit_price * (q : ℚ)
    let item_discount := item_subtotal / subtotal * discount_amount
    let item_revenue := item_subtotal - item_discount
    let item_cogs := p.avg_cogs * (q : ℚ)
    let item_profit := item_revenue - item_cogs
    { line_item_id := "LI" ++ zpad 7 oid ++ "_" ++ toString j
      order_id := oidStr
      customer_id := custId
      product_id := p.product_id
      product_name := p.name
      category := p.category
      quantity := q
      unit_price := p.unit_price
      subtotal := round2 item_subtotal
      discount_amount := round2 item_discount
      revenue := round2 item_revenue
      cogs := some (round2 item_cogs)
      profit := some (round2 item_profit)
      order_date := odate } ::
      mkLineItems oidStr custId subtotal discount_amount odate oid rest (j + 1)

/-- One order for a customer with effective acquisition day acq: date
draw over [acq, acq + min(days_since_acq, 730)], item-count draw, item
draws, discount-tier draw, then the two null-injection coins (0.5% order
date; 3% COGS and profit together). -/
def genOrder (s : ℕ → ℚ) (cust : Customer) (acq : ℚ) (isB2B : Bool)
    (oid : ℕ) (k : ℕ) : Order × List LineItem × ℕ :=
  let daysSince : ℤ := ⌊winEnd - acq⌋
  let rd := random_date s acq (acq + ((min daysSince 730 : ℤ) : ℚ)) k
  let numProducts : ℤ :=
    if isB2B then (randint s 3 8 rd.2).1 else (randint s 1 3 rd.2).1
  let itk := genItems s isB2B numProducts.toNat (rd.2 + 1)
  let items := itk.1
  let subtotal := itemsSub items
  let dIdx := weighted_random (s itk.2) (if isB2B then [20, 30, 30, 15, 5] else [70, 25, 5])
  let discount_percent : ℤ :=
    if isB2B then pyGet [0, 5, 10, 15, 20] dIdx 0 else pyGet [0, 10, 15] dIdx 0
  let discount_amount := subtotal * ((discount_percent : ℚ) / 100)
  let revenue := subtotal - discount_amount
  let total_cogs := itemsCogs items
  let profit := revenue - total_cogs
  let c1 := s (itk.2 + 1)
  let c2 := s (itk.2 + 2)
  let odate : Option ℤ := if c1 < 5/1000 then none else some ⌊rd.1⌋
  let oidStr := "ORD" ++ zpad 7 oid
  let order : Order :=
    { order_id := oidStr
      customer_id := cust.customer_id
      order_date := odate
      subtotal := round2 subtotal
      discount_percent := discount_percent
      discount_amount := round2 discount_amount
      revenue := round2 revenue
      total_cogs := if c2 < 3/100 then none else some (round2 total_cogs)
      profit := if c2 < 3/100 then none else some (round2 profit)
      num_items := items.length }
  (order, mkLineItems oidStr cust.customer_id subtotal discount_amount odate oid items 1,
   itk.2 + 3)

/-- The per-customer order loop: n orders, threading the global order-id
counter and the random-stream index. -/
def genOrdersLoop (s : ℕ → ℚ) (cust : Customer) (acq : ℚ) (isB2B : Bool) :
    ℕ → ℕ → ℕ → List (Order × List LineItem) × ℕ × ℕ
  | 0, oid, k => ([], oid, k)
  | Nat.succ n, oid, k =>
    let r := genOrder s cust acq isB2B oid k
    let rest := genOrdersLoop s cust acq isB2B n (oid + 1) r.2.2
    ((r.1, r.2.1) :: rest.1, rest.2)

/-- Effective acquisition day for order generation: the fixed fallback
2023-01-01 when the stored acquisition date is null, else the stored
day.  Used only for date math; the customer record is not changed. -/
def acqEff (c : Customer) : ℚ :=
  match c.acquisition_date with
  | none => (fallbackAcq : ℚ)
  | some d => (d : ℚ)

/-- Orders for one customer: order-count draw by segment and status,
then the order loop. -/
def genOrdersForCustomer (s : ℕ → ℚ) (c : Customer) (oid k : ℕ) :
    List (Order × List LineItem) × ℕ × ℕ :=
  let isB2B := c.segment == "B2B"
  let numOrders : ℤ :=
    if isB2B then (randint s 12 36 k).1
    else if c.status == "Active" then (randint s 2 10 k).1
    else if c.status == "Churned" then (randint s 1 3 k).1
    else (randint s 2 7 k).1
  genOrdersLoop s c (acqEff c) isB2B numOrders.toNat oid (k + 1)

/-- KikapuDataGenerator.generate_orders over the customer table, in
table order; the flat orders/line-items tables are the projections of
the grouped list (the code appends each order's record and then its
line items, so grouping is by construction). -/
def generate_orders (s : ℕ → ℚ) :
    List Customer → ℕ → ℕ → List (Order × List LineItem) × ℕ × ℕ
  | [], oid, k => ([], oid, k)
  | c :: cs, oid, k =>
    let r := genOrdersForCustomer s c oid k
    let rest := generate_orders s cs r.2.1 r.2.2
    (r.1 ++ rest.1, rest.2)

/-- The four output tables of a generation run (orders and line items
kept grouped per order; the flat tables are projections). -/
structure Dataset where
  products : List Product
  customers : List Customer
  ordersGrouped : List (Order × List LineItem)
deriving DecidableEq, Repr

def Dataset.orders (d : Dataset) : List Order := d.ordersGrouped.map Prod.fst

def Dataset.line_items (d : Dataset) : List LineItem :=
  (d.ordersGrouped.map Prod.snd).flatten

/-- A complete generation run (generate_all): products, then customers,
then orders, consuming the single random stream in order; the order-id
counter starts at 1. -/
def generateAll (s : ℕ → ℚ) (num_d2c num_b2b : ℕ) : Dataset :=
  let cs := generate_customers s num_d2c num_b2b 0
  let og := generate_orders s cs.1 1 cs.2
  { products := products, customers := cs.1, ordersGrouped := og.1 }

/-- Whether a product record carries an exact-cent (positive) unit
price and an even number of cents of average cost; holds for every
catalog row (all prices end in .99, all costs in a multiple of ten
cents). -/
def ProductOK (p : Product) : Prop :=
  (∃ n : ℤ, p.unit_price * 100 = (n : ℚ)) ∧ 0 < p.unit_price ∧
    (∃ n : ℤ, p.avg_cogs * 100 = ((2 * n : ℤ) : ℚ))

/-- Prefix sum of the first n weights, as a rational. -/
def wsum (ws : List ℕ) (n : ℕ) : ℚ := (((ws.take n).sum : ℕ) : ℚ)

/-- A concrete in-contract random stream (every draw 1/2), used to
instantiate universally quantified theorems on a small real run. -/
def sHalf : ℕ → ℚ := fun _ => 1/2

/-- Stream of draws for the C7 counterexample run: one B2B customer
whose first order has eight line items of product P001 with quantity 11
each and a 5% discount, no nulls. -/
def sCE7 : ℕ → ℚ := fun n =>
  ([0, 0, 0, 0, 0, 5/6, 0, 1/51, 0, 1/51, 0, 1/51, 0, 1/51, 0, 1/51, 0, 1/51,
    0, 1/51, 0, 1/51, 1/4, 1/2, 1/2] : List ℚ).getD n 0

/-- Placeholder order used only as the default of List.getD when
extracting a concrete order from a concrete run. -/
def dummyOrder : Order := ⟨"", "", none, 0, 0, 0, 0, none, none, 0⟩

/-- Placeholder grouped order for List.getD extraction. -/
def dummyGrp : Order × List LineItem := (dummyOrder, [])

/-- A concrete customer record used to instantiate per-customer
theorems. -/
def dummyCustomer : Customer :=
  ⟨"C000000", "D2C", some 0, none, "US", "Active", none, none⟩

/-! Arithmetic facts about bankers rounding and exact-cent values. -/

theorem rne_intCast (k : ℤ) : rne (k : ℚ) = k := by
  unfold rne
  rw [Int.floor_intCast]
  norm_num

theorem abs_rne_sub (x : ℚ) : |(rne x : ℚ) - x| ≤ 1/2 := by
  have h0 : ((⌊x⌋ : ℤ) : ℚ) ≤ x := Int.floor_le x
  have h1 : x < (⌊x⌋ : ℚ) + 1 := Int.lt_floor_add_one x
  unfold rne
  split_ifs with ha hb hc
  · rw [abs_le]; constructor <;> linarith
  · push_cast
    rw [abs_le]; constructor <;> linarith
  · rw [abs_le]
    have hx : x - (⌊x⌋ : ℚ) = 1/2 := le_antisymm (not_lt.mp hb) (not_lt.mp ha)
    constructor <;> linarith
  · push_cast
    have hx : x - (⌊x⌋ : ℚ) = 1/2 := le_antisymm (not_lt.mp hb) (not_lt.mp ha)
    rw [abs_le]; constructor <;> linarith

theorem rne_add_two_mul (x : ℚ) (k : ℤ) :
    rne (x + ((2 * k : ℤ) : ℚ)) = rne x + 2 * k := by
  have hf : ⌊x + ((2 * k : ℤ) : ℚ)⌋ = ⌊x⌋ + 2 * k := Int.floor_add_int x (2 * k)
  have hr : x + ((2 * k : ℤ) : ℚ) - ((⌊x⌋ + 2 * k : ℤ) : ℚ) = x - ((⌊x⌋ : ℤ) : ℚ) := by
    push_cast; ring
  have hpar : (⌊x⌋ + 2 * k) % 2 = ⌊x⌋ % 2 := by omega
  unfold rne
  rw [hf, hr, hpar]
  split_ifs <;> ring

theorem round2_cents {x : ℚ} (h : Cents x) : round2 x = x := by
  obtain ⟨n, hn⟩ := h
  rw [round2, hn, rne_intCast, ← hn]
  ring

theorem cents_round2 (x : ℚ) : Cents (round2 x) := by
  exact ⟨rne (x * 100), by rw [round2]; ring⟩

theorem cents_add {x y : ℚ} (hx : Cents x) (hy : Cents y) : Cents (x + y) := by
  obtain ⟨m, hm⟩ := hx
  obtain ⟨n, hn⟩ := hy
  exact ⟨m + n, by push_cast; rw [add_mul, hm, hn]⟩

theorem cents_sub {x y : ℚ} (hx : Cents x) (hy : Cents y) : Cents (x - y) := by
  obtain ⟨m, hm⟩ := hx
  obtain ⟨n, hn⟩ := hy
  exact ⟨m - n, by push_cast; rw [sub_mul, hm, hn]⟩

theorem cents_zero : Cents 0 := ⟨0, by norm_num⟩

theorem cents_sum {l : List ℚ} (h : ∀ x ∈ l, Cents x) : Cents l.sum := by
  induction l with
  | nil => simpa using cents_zero
  | cons a l ih =>
    rw [List.sum_cons]
    exact cents_add (h a (by simp)) (ih fun x hx => h x (List.mem_cons_of_mem a hx))

theorem evenCents_sum {l : List ℚ} (h : ∀ x ∈ l, EvenCents x) : EvenCents l.sum := by
  induction l with
  | nil => exact ⟨0, by norm_num⟩
  | cons a l ih =>
    obtain ⟨m, hm⟩ := h a (by simp)
    obtain ⟨n, hn⟩ := ih fun x hx => h x (List.mem_cons_of_mem a hx)
    exact ⟨m + n, by rw [List.sum_cons, add_mul, hm, hn]; push_cast; ring⟩

theorem evenCents_cents {x : ℚ} (h : EvenCents x) : Cents x := by
  obtain ⟨n, hn⟩ := h
  exact ⟨2 * n, hn⟩

theorem abs_round2_sub (x : ℚ) : |round2 x - x| ≤ 1/200 := by
  have h := abs_rne_sub (x * 100)
  have hx : round2 x - x = ((rne (x * 100) : ℚ) - x * 100) / 100 := by
    rw [round2]; ring
  rw [hx, abs_div]
  rw [show |(100 : ℚ)| = 100 by norm_num]
  linarith

theorem round2_sub_evenCents {x c : ℚ} (hc : EvenCents c) :
    round2 (x - c) = round2 x - c := by
  obtain ⟨n, hn⟩ := hc
  have h1 : (x - c) * 100 = x * 100 + ((2 * (-n) : ℤ) : ℚ) := by
    push_cast
    push_cast at hn
    linarith
  rw [round2, round2, h1, rne_add_two_mul]
  push_cast
  push_cast at hn
  field_simp
  linarith

theorem round2_sub_round2_bound (S D : ℚ) :
    |round2 (S - D) - (S - round2 D)| ≤ 1/100 := by
  have h1 := abs_round2_sub (S - D)
  have h2 := abs_round2_sub D
  have he : round2 (S - D) - (S - round2 D) =
      (round2 (S - D) - (S - D)) + (round2 D - D) := by ring
  rw [he]
  calc |round2 (S - D) - (S - D) + (round2 D - D)|
      ≤ |round2 (S - D) - (S - D)| + |round2 D - D| := abs_add _ _
    _ ≤ 1/100 := by linarith

theorem abs_list_sum_le {l : List ℚ} {e : ℚ} (h : ∀ x ∈ l, |x| ≤ e) :
    |l.sum| ≤ l.length * e := by
  induction l with
  | nil => simp
  | cons a l ih =>
    have ha := h a (by simp)
    have hl := ih fun x hx => h x (List.mem_cons_of_mem a hx)
    rw [List.sum_cons, List.length_cons]
    calc |a + l.sum| ≤ |a| + |l.sum| := abs_add _ _
      _ ≤ e + l.length * e := by linarith
      _ = (l.length + 1) * e := by ring
      _ = ((l.length + 1 : ℕ) : ℚ) * e := by push_cast; ring

/-! Catalog facts and random-draw bounds. -/

theorem productOK_of_mem : ∀ p ∈ products, ProductOK p := by
  intro p hp
  fin_cases hp
  · exact ⟨⟨1899, by norm_num⟩, by norm_num, ⟨425, by norm_num⟩⟩
  · exact ⟨⟨2299, by norm_num⟩, by norm_num, ⟨510, by norm_num⟩⟩
  · exact ⟨⟨2499, by norm_num⟩, by norm_num, ⟨600, by norm_num⟩⟩
  · exact ⟨⟨1599, by norm_num⟩, by norm_num, ⟨390, by norm_num⟩⟩
  · exact ⟨⟨2999, by norm_num⟩, by norm_num, ⟨725, by norm_num⟩⟩
  · exact ⟨⟨3499, by norm_num⟩, by norm_num, ⟨840, by norm_num⟩⟩
  · exact ⟨⟨3999, by norm_num⟩, by norm_num, ⟨900, by norm_num⟩⟩
  · exact ⟨⟨2699, by norm_num⟩, by norm_num, ⟨625, by norm_num⟩⟩
  · exact ⟨⟨3299, by norm_num⟩, by norm_num, ⟨750, by norm_num⟩⟩
  · exact ⟨⟨1999, by norm_num⟩, by norm_num, ⟨475, by norm_num⟩⟩

theorem pyGet_products_mem (i : ℤ) : pyGet products i prodDefault ∈ products := by
  unfold pyGet
  rcases lt_or_ge i.toNat products.length with h | h
  · rw [List.getD_eq_getElem products prodDefault h]
    exact List.getElem_mem h
  · rw [List.getD_eq_default products prodDefault h]
    simp [products, prodDefault]

theorem productOK_pyGet (i : ℤ) : ProductOK (pyGet products i prodDefault) :=
  productOK_of_mem _ (pyGet_products_mem i)

theorem cents_price_mul {p : Product} (hp : ProductOK p) (q : ℤ) :
    Cents (p.unit_price * (q : ℚ)) := by
  obtain ⟨n, hn⟩ := hp.1
  exact ⟨n * q, by
    rw [show p.unit_price * (q:ℚ) * 100 = p.unit_price * 100 * q by ring, hn]
    push_cast; ring⟩

theorem evenCents_cogs_mul {p : Product} (hp : ProductOK p) (q : ℤ) :
    EvenCents (p.avg_cogs * (q : ℚ)) := by
  obtain ⟨m, hm⟩ := hp.2.2
  exact ⟨m * q, by
    rw [show p.avg_cogs * (q:ℚ) * 100 = p.avg_cogs * 100 * q by ring, hm]
    push_cast; ring⟩

theorem cents_itemsSub {items : List (Product × ℤ)}
    (h : ∀ it ∈ items, ProductOK it.1) : Cents (itemsSub items) := by
  unfold itemsSub
  refine cents_sum ?_
  intro x hx
  obtain ⟨it, hit, rfl⟩ := List.mem_map.mp hx
  exact cents_price_mul (h it hit) it.2

theorem evenCents_itemsCogs {items : List (Product × ℤ)}
    (h : ∀ it ∈ items, ProductOK it.1) : EvenCents (itemsCogs items) := by
  unfold itemsCogs
  refine evenCents_sum ?_
  intro x hx
  obtain ⟨it, hit, rfl⟩ := List.mem_map.mp hx
  exact evenCents_cogs_mul (h it hit) it.2

theorem randint_bounds {s : ℕ → ℚ} (hs : Valid s) {a b : ℤ} (hab : a ≤ b) (k : ℕ) :
    a ≤ (randint s a b k).1 ∧ (randint s a b k).1 ≤ b := by
  obtain ⟨h0, h1⟩ := hs k
  have hm : (0 : ℚ) < ((b - a + 1 : ℤ) : ℚ) := by
    have hz : (0 : ℤ) < b - a + 1 := by omega
    exact_mod_cast hz
  have hfl : (0 : ℤ) ≤ ⌊s k * ((b - a + 1 : ℤ) : ℚ)⌋ :=
    Int.floor_nonneg.mpr (mul_nonneg h0 (le_of_lt hm))
  have hlt : s k * ((b - a + 1 : ℤ) : ℚ) < ((b - a + 1 : ℤ) : ℚ) := by
    calc s k * ((b - a + 1 : ℤ) : ℚ) < 1 * ((b - a + 1 : ℤ) : ℚ) :=
          mul_lt_mul_of_pos_right h1 hm
      _ = ((b - a + 1 : ℤ) : ℚ) := one_mul _
  have hfu : ⌊s k * ((b - a + 1 : ℤ) : ℚ)⌋ < b - a + 1 := Int.floor_lt.mpr hlt
  unfold randint
  constructor
  · show a ≤ a + ⌊s k * ((b - a + 1 : ℤ) : ℚ)⌋
    omega
  · show a + ⌊s k * ((b - a + 1 : ℤ) : ℚ)⌋ ≤ b
    omega

theorem genItems_productOK {s : ℕ → ℚ} {b : Bool} :
    ∀ (n k : ℕ), ∀ it ∈ (genItems s b n k).1, ProductOK it.1 := by
  intro n
  induction n with
  | zero => intro k it hit; simp [genItems] at hit
  | succ n ih =>
    intro k it hit
    simp only [genItems, List.mem_cons] at hit
    rcases hit with h | h
    · rw [h]; exact productOK_pyGet _
    · exact ih _ it h

theorem qtyDraw_bounds {s : ℕ → ℚ} (hs : Valid s) (b : Bool) (k : ℕ) :
    1 ≤ qtyDraw s b k ∧ qtyDraw s b k ≤ 60 := by
  cases b with
  | false =>
    have h := randint_bounds hs (by norm_num : (1:ℤ) ≤ 3) k
    unfold qtyDraw
    simp only [Bool.false_eq_true, if_false]
    omega
  | true =>
    have h := randint_bounds hs (by norm_num : (10:ℤ) ≤ 60) k
    unfold qtyDraw
    simp only [if_true]
    omega

theorem genItems_qty {s : ℕ → ℚ} (hs : Valid s) {b : Bool} :
    ∀ (n k : ℕ), ∀ it ∈ (genItems s b n k).1, 1 ≤ it.2 := by
  intro n
  induction n with
  | zero => intro k it hit; simp [genItems] at hit
  | succ n ih =>
    intro k it hit
    simp only [genItems, List.mem_cons] at hit
    rcases hit with h | h
    · rw [h]
      exact (qtyDraw_bounds hs b _).1
    · exact ih _ it h

theorem genItems_length {s : ℕ → ℚ} {b : Bool} :
    ∀ (n k : ℕ), (genItems s b n k).1.length = n := by
  intro n
  induction n with
  | zero => intro k; simp [genItems]
  | succ n ih => intro k; simp [genItems, ih]

/-! Structural characterization of a single generated order, and
membership lemmas lifting it to the full pipeline. -/

theorem random_date_fst (s : ℕ → ℚ) (k : ℕ) (a : ℚ) (m : ℤ) :
    (random_date s a (a + (m : ℚ)) k).1 = a + s k * (m : ℚ) := by
  unfold random_date
  simp only []
  rw [add_sub_cancel_left, Int.floor_intCast]

theorem genOrder_char (s : ℕ → ℚ) (cust : Customer) (acq : ℚ) (b : Bool) (oid k : ℕ) :
    ∃ items : List (Product × ℤ),
      (∀ it ∈ items, ProductOK it.1) ∧
      (Valid s → (∀ it ∈ items, 1 ≤ it.2) ∧ 1 ≤ items.length ∧ items.length ≤ 8) ∧
      ((genOrder s cust acq b oid k).1.order_date = none ∨
        (genOrder s cust acq b oid k).1.order_date =
          some ⌊acq + s k * ((min ⌊winEnd - acq⌋ 730 : ℤ) : ℚ)⌋) ∧
      (genOrder s cust acq b oid k).1.subtotal = round2 (itemsSub items) ∧
      (genOrder s cust acq b oid k).1.discount_amount =
        round2 (itemsSub items *
          (((genOrder s cust acq b oid k).1.discount_percent : ℚ) / 100)) ∧
      (genOrder s cust acq b oid k).1.revenue =
        round2 (itemsSub items - itemsSub items *
          (((genOrder s cust acq b oid k).1.discount_percent : ℚ) / 100)) ∧
      ((genOrder s cust acq b oid k).1.total_cogs = none ↔
        (genOrder s cust acq b oid k).1.profit = none) ∧
      (∀ q, (genOrder s cust acq b oid k).1.total_cogs = some q →
        q = round2 (itemsCogs items) ∧
        (genOrder s cust acq b oid k).1.profit =
          some (round2 (itemsSub items - itemsSub items *
            (((genOrder s cust acq b oid k).1.discount_percent : ℚ) / 100) -
            itemsCogs items))) ∧
      (genOrder s cust acq b oid k).1.num_items = items.length ∧
      (genOrder s cust acq b oid k).2.1 =
        mkLineItems (genOrder s cust acq b oid k).1.order_id cust.customer_id
          (itemsSub items)
          (itemsSub items * (((genOrder s cust acq b oid k).1.discount_percent : ℚ) / 100))
          (genOrder s cust acq b oid k).1.order_date oid items 1 := by
  refine ⟨(genItems s b (if b then (randint s 3 8 (k+1)).1 else (randint s 1 3 (k+1)).1).toNat
      (k + 2)).1, ?_, ?_, ?_, rfl, rfl, rfl, ?_, ?_, rfl, rfl⟩
  · intro it hit
    exact genItems_productOK _ _ it hit
  · intro hs
    refine ⟨genItems_qty hs _ _, ?_⟩
    rw [genItems_length]
    cases b with
    | false =>
      have h := randint_bounds hs (by norm_num : (1:ℤ) ≤ 3) (k+1)
      simp only [Bool.false_eq_true, if_false]
      omega
    | true =>
      have h := randint_bounds hs (by norm_num : (3:ℤ) ≤ 8) (k+1)
      simp only [if_true]
      omega
  · unfold genOrder
    simp only []
    split_ifs <;>
      first
        | exact Or.inl rfl
        | exact Or.inr (by rw [random_date_fst])
  · unfold genOrder
    simp only []
    split_ifs <;> simp
  · unfold genOrder
    simp only []
    split_ifs <;> intro q hq <;>
      first
        | exact hq.elim
        | exact ⟨(Option.some.inj hq).symm, rfl⟩

theorem genOrdersLoop_mem {s : ℕ → ℚ} {cust : Customer} {acq : ℚ} {b : Bool} :
    ∀ {n oid k : ℕ} {pr : Order × List LineItem},
      pr ∈ (genOrdersLoop s cust acq b n oid k).1 →
      ∃ oid' k', pr = ((genOrder s cust acq b oid' k').1,
                       (genOrder s cust acq b oid' k').2.1) := by
  intro n
  induction n with
  | zero => intro oid k pr h; simp [genOrdersLoop] at h
  | succ n ih =>
    intro oid k pr h
    simp only [genOrdersLoop, List.mem_cons] at h
    rcases h with h | h
    · exact ⟨oid, k, h⟩
    · exact ih h

theorem generate_orders_mem {s : ℕ → ℚ} :
    ∀ {cs : List Customer} {oid k : ℕ} {pr : Order × List LineItem},
      pr ∈ (generate_orders s cs oid k).1 →
      ∃ c ∈ cs, ∃ oid' k',
        pr = ((genOrder s c (acqEff c) (c.segment == "B2B") oid' k').1,
              (genOrder s c (acqEff c) (c.segment == "B2B") oid' k').2.1) := by
  intro cs
  induction cs with
  | nil => intro oid k pr h; simp [generate_orders] at h
  | cons c cs ih =>
    intro oid k pr h
    simp only [generate_orders, List.mem_append] at h
    rcases h with h | h
    · unfold genOrdersForCustomer at h
      obtain ⟨oid', k', hpr⟩ := genOrdersLoop_mem h
      exact ⟨c, List.mem_cons_self c cs, oid', k', hpr⟩
    · obtain ⟨c', hc', oid', k', hpr⟩ := ih h
      exact ⟨c', List.mem_cons_of_mem c hc', oid', k', hpr⟩

theorem generateAll_grouped_mem {s : ℕ → ℚ} {a b : ℕ} {pr : Order × List LineItem}
    (h : pr ∈ (generateAll s a b).ordersGrouped) :
    ∃ c ∈ (generate_customers s a b 0).1, ∃ oid' k',
      pr = ((genOrder s c (acqEff c) (c.segment == "B2B") oid' k').1,
            (genOrder s c (acqEff c) (c.segment == "B2B") oid' k').2.1) :=
  generate_orders_mem h

theorem generateAll_orders_mem {s : ℕ → ℚ} {a b : ℕ} {o : Order}
    (h : o ∈ (generateAll s a b).orders) :
    ∃ c ∈ (generate_customers s a b 0).1, ∃ oid' k',
      o = (genOrder s c (acqEff c) (c.segment == "B2B") oid' k').1 := by
  obtain ⟨pr, hpr, rfl⟩ := List.mem_map.mp h
  obtain ⟨c, hc, oid', k', hpr'⟩ := generateAll_grouped_mem hpr
  exact ⟨c, hc, oid', k', by rw [hpr']⟩

/-! Bounds on stored and effective acquisition dates of generated
customers. -/

theorem random_date_bounds {s : ℕ → ℚ} (k : ℕ) {a e : ℚ} (h0 : 0 ≤ s k)
    (h1 : s k < 1) (hae : a ≤ e) :
    a ≤ (random_date s a e k).1 ∧ (random_date s a e k).1 ≤ e := by
  unfold random_date
  simp only []
  have hfl0 : (0 : ℤ) ≤ ⌊e - a⌋ := Int.floor_nonneg.mpr (by linarith)
  have hfl0q : (0 : ℚ) ≤ ((⌊e - a⌋ : ℤ) : ℚ) := by exact_mod_cast hfl0
  have hfl_le : ((⌊e - a⌋ : ℤ) : ℚ) ≤ e - a := Int.floor_le _
  constructor
  · have := mul_nonneg h0 hfl0q
    linarith
  · have hle : s k * ((⌊e - a⌋ : ℤ) : ℚ) ≤ ((⌊e - a⌋ : ℤ) : ℚ) :=
      mul_le_of_le_one_left hfl0q (le_of_lt h1)
    linarith

theorem acqEff_int (c : Customer) : ∃ z : ℤ, acqEff c = (z : ℚ) := by
  unfold acqEff
  cases c.acquisition_date with
  | none => exact ⟨fallbackAcq, rfl⟩
  | some d => exact ⟨d, rfl⟩

theorem genD2C_acq_le {s : ℕ → ℚ} (hs : Valid s) (i k : ℕ) :
    acqEff (genD2CCustomer s i k).1 ≤ winEnd := by
  have hb := random_date_bounds k (hs k).1 (hs k).2
    (show d2cStart ≤ winEnd by norm_num [d2cStart, winEnd])
  unfold genD2CCustomer acqEff
  simp only []
  split_ifs with hc
  · show ((fallbackAcq : ℤ) : ℚ) ≤ winEnd
    norm_num [fallbackAcq, winEnd]
  · show ((⌊(random_date s d2cStart winEnd k).1⌋ : ℤ) : ℚ) ≤ winEnd
    have hfl := Int.floor_le (random_date s d2cStart winEnd k).1
    linarith [hb.2]

theorem genB2B_acq_le {s : ℕ → ℚ} (hs : Valid s) (i k : ℕ) :
    acqEff (genB2BCustomer s i k).1 ≤ winEnd := by
  have hb := random_date_bounds k (hs k).1 (hs k).2
    (show b2bStart ≤ winEnd by norm_num [b2bStart, winEnd])
  unfold genB2BCustomer acqEff
  simp only []
  show ((⌊(random_date s b2bStart winEnd k).1⌋ : ℤ) : ℚ) ≤ winEnd
  have hfl := Int.floor_le (random_date s b2bStart winEnd k).1
  linarith [hb.2]

theorem genD2CList_mem {s : ℕ → ℚ} :
    ∀ {n i k : ℕ} {c : Customer}, c ∈ (genD2CList s n i k).1 →
      ∃ i' k', c = (genD2CCustomer s i' k').1 := by
  intro n
  induction n with
  | zero => intro i k c h; simp [genD2CList] at h
  | succ n ih =>
    intro i k c h
    simp only [genD2CList, List.mem_cons] at h
    rcases h with h | h
    · exact ⟨i, k, h⟩
    · exact ih h

theorem genB2BList_mem {s : ℕ → ℚ} :
    ∀ {n i k : ℕ} {c : Customer}, c ∈ (genB2BList s n i k).1 →
      ∃ i' k', c = (genB2BCustomer s i' k').1 := by
  intro n
  induction n with
  | zero => intro i k c h; simp [genB2BList] at h
  | succ n ih =>
    intro i k c h
    simp only [genB2BList, List.mem_cons] at h
    rcases h with h | h
    · exact ⟨i, k, h⟩
    · exact ih h

theorem generate_customers_acq_le {s : ℕ → ℚ} (hs : Valid s) {a b k : ℕ} :
    ∀ c ∈ (generate_customers s a b k).1, acqEff c ≤ winEnd := by
  intro c hc
  unfold generate_customers at hc
  simp only [List.mem_append] at hc
  rcases hc with h | h
  · obtain ⟨i', k', rfl⟩ := genD2CList_mem h
    exact genD2C_acq_le hs i' k'
  · obtain ⟨i', k', rfl⟩ := genB2BList_mem h
    exact genB2B_acq_le hs i' k'

/-! Field lemmas for the line-item emission loop. -/

theorem mkLineItems_mem {oidStr cid : String} {S D : ℚ} {od : Option ℤ} {oid : ℕ} :
    ∀ {items : List (Product × ℤ)} {j : ℕ} {li : LineItem},
      li ∈ mkLineItems oidStr cid S D od oid items j →
      ∃ it ∈ items,
        li.subtotal = round2 (it.1.unit_price * (it.2 : ℚ)) ∧
        li.discount_amount = round2 (it.1.unit_price * (it.2 : ℚ) / S * D) ∧
        li.revenue = round2 (it.1.unit_price * (it.2 : ℚ) -
          it.1.unit_price * (it.2 : ℚ) / S * D) ∧
        li.cogs = some (round2 (it.1.avg_cogs * (it.2 : ℚ))) ∧
        li.profit = some (round2 (it.1.unit_price * (it.2 : ℚ) -
          it.1.unit_price * (it.2 : ℚ) / S * D - it.1.avg_cogs * (it.2 : ℚ))) ∧
        li.order_date = od ∧ li.quantity = it.2 ∧ li.unit_price = it.1.unit_price ∧
        li.product_id = it.1.product_id := by
  intro items
  induction items with
  | nil => intro j li h; simp [mkLineItems] at h
  | cons it items ih =>
    obtain ⟨p, q⟩ := it
    intro j li h
    simp only [mkLineItems, List.mem_cons] at h
    rcases h with h | h
    · rw [h]
      exact ⟨(p, q), List.mem_cons_self _ _, rfl, rfl, rfl, rfl, rfl, rfl, rfl, rfl, rfl⟩
    · obtain ⟨it', hit', hfields⟩ := ih h
      exact ⟨it', List.mem_cons_of_mem _ hit', hfields⟩

theorem mkLineItems_map_subtotal {oidStr cid : String} {S D : ℚ} {od : Option ℤ} {oid : ℕ} :
    ∀ (items : List (Product × ℤ)) (j : ℕ),
      (mkLineItems oidStr cid S D od oid items j).map LineItem.subtotal =
        items.map fun it => round2 (it.1.unit_price * (it.2 : ℚ)) := by
  intro items
  induction items with
  | nil => intro j; simp [mkLineItems]
  | cons it items ih =>
    obtain ⟨p, q⟩ := it
    intro j
    simp only [mkLineItems, List.map_cons, ih]

theorem mkLineItems_map_revenue {oidStr cid : String} {S D : ℚ} {od : Option ℤ} {oid : ℕ} :
    ∀ (items : List (Product × ℤ)) (j : ℕ),
      (mkLineItems oidStr cid S D od oid items j).map LineItem.revenue =
        items.map fun it => round2 (it.1.unit_price * (it.2 : ℚ) -
          it.1.unit_price * (it.2 : ℚ) / S * D) := by
  intro items
  induction items with
  | nil => intro j; simp [mkLineItems]
  | cons it items ih =>
    obtain ⟨p, q⟩ := it
    intro j
    simp only [mkLineItems, List.map_cons, ih]

theorem mkLineItems_map_cogs {oidStr cid : String} {S D : ℚ} {od : Option ℤ} {oid : ℕ} :
    ∀ (items : List (Product × ℤ)) (j : ℕ),
      (mkLineItems oidStr cid S D od oid items j).map (fun li => li.cogs.getD 0) =
        items.map fun it => round2 (it.1.avg_cogs * (it.2 : ℚ)) := by
  intro items
  induction items with
  | nil => intro j; simp [mkLineItems]
  | cons it items ih =>
    obtain ⟨p, q⟩ := it
    intro j
    simp only [mkLineItems, List.map_cons, ih]
    simp

theorem mkLineItems_length {oidStr cid : String} {S D : ℚ} {od : Option ℤ} {oid : ℕ} :
    ∀ (items : List (Product × ℤ)) (j : ℕ),
      (mkLineItems oidStr cid S D od oid items j).length = items.length := by
  intro items
  induction items with
  | nil => intro j; simp [mkLineItems]
  | cons it items ih =>
    obtain ⟨p, q⟩ := it
    intro j
    simp only [mkLineItems, List.length_cons, ih]

/-! Summation lemmas for reconciling line items against order totals. -/

theorem sum_map_mul_right_q {α : Type} (l : List α) (f : α → ℚ) (c : ℚ) :
    (l.map fun x => f x * c).sum = (l.map f).sum * c := by
  induction l with
  | nil => simp
  | cons a l ih => simp [ih, add_mul]

theorem sum_map_sub_q {α : Type} (l : List α) (f g : α → ℚ) :
    (l.map fun x => f x - g x).sum = (l.map f).sum - (l.map g).sum := by
  induction l with
  | nil => simp
  | cons a l ih =>
    simp only [List.map_cons, List.sum_cons, ih]
    ring

theorem sum_round2_sub {items : List (Product × ℤ)}
    (h : ∀ it ∈ items, ProductOK it.1) :
    (items.map fun it => round2 (it.1.unit_price * (it.2 : ℚ))).sum = itemsSub items := by
  unfold itemsSub
  induction items with
  | nil => simp
  | cons it items ih =>
    simp only [List.map_cons, List.sum_cons]
    rw [round2_cents (cents_price_mul (h it (List.mem_cons_self it items)) it.2),
      ih fun x hx => h x (List.mem_cons_of_mem it hx)]

theorem sum_round2_cogs {items : List (Product × ℤ)}
    (h : ∀ it ∈ items, ProductOK it.1) :
    (items.map fun it => round2 (it.1.avg_cogs * (it.2 : ℚ))).sum = itemsCogs items := by
  unfold itemsCogs
  induction items with
  | nil => simp
  | cons it items ih =>
    simp only [List.map_cons, List.sum_cons]
    rw [round2_cents (evenCents_cents
        (evenCents_cogs_mul (h it (List.mem_cons_self it items)) it.2)),
      ih fun x hx => h x (List.mem_cons_of_mem it hx)]

theorem sum_item_revenue {items : List (Product × ℤ)} (hS : itemsSub items ≠ 0) (D : ℚ) :
    (items.map fun it => it.1.unit_price * (it.2 : ℚ) -
      it.1.unit_price * (it.2 : ℚ) / itemsSub items * D).sum = itemsSub items - D := by
  have hfun : (fun it : Product × ℤ => it.1.unit_price * (it.2 : ℚ) -
      it.1.unit_price * (it.2 : ℚ) / itemsSub items * D) =
      fun it : Product × ℤ => (it.1.unit_price * (it.2 : ℚ)) *
        (1 - D / itemsSub items) := by
    funext it
    ring
  rw [hfun, sum_map_mul_right_q]
  show itemsSub items * (1 - D / itemsSub items) = itemsSub items - D
  field_simp

theorem sum_map_round2_bound (l : List ℚ) :
    |(l.map round2).sum - round2 l.sum| ≤ ((l.length + 1 : ℕ) : ℚ) / 200 := by
  have h1 : (l.map round2).sum - l.sum = (l.map fun x => round2 x - x).sum := by
    rw [sum_map_sub_q]
    simp [List.map_id]
  have h2 : ∀ x ∈ (l.map fun x => round2 x - x), |x| ≤ 1/200 := by
    intro x hx
    obtain ⟨y, _, rfl⟩ := List.mem_map.mp hx
    exact abs_round2_sub y
  have h3 := abs_list_sum_le h2
  rw [List.length_map] at h3
  rw [← h1] at h3
  have h4 := abs_round2_sub l.sum
  have h5 : (l.map round2).sum - round2 l.sum =
      ((l.map round2).sum - l.sum) + (l.sum - round2 l.sum) := by ring
  rw [h5]
  calc |((l.map round2).sum - l.sum) + (l.sum - round2 l.sum)|
      ≤ |(l.map round2).sum - l.sum| + |l.sum - round2 l.sum| := abs_add _ _
    _ ≤ (l.length : ℚ) * (1/200) + 1/200 := by
        rw [abs_sub_comm l.sum (round2 l.sum)]
        exact add_le_add h3 h4
    _ = ((l.length + 1 : ℕ) : ℚ) / 200 := by push_cast; ring

theorem itemsSub_nonneg {items : List (Product × ℤ)}
    (hOK : ∀ it ∈ items, ProductOK it.1) (hq : ∀ it ∈ items, 1 ≤ it.2) :
    0 ≤ itemsSub items := by
  unfold itemsSub
  induction items with
  | nil => simp
  | cons it items ih =>
    simp only [List.map_cons, List.sum_cons]
    have hp := (hOK it (List.mem_cons_self it items)).2.1
    have hq1 : (1 : ℚ) ≤ (it.2 : ℚ) := by exact_mod_cast hq it (List.mem_cons_self it items)
    have h1 : 0 ≤ it.1.unit_price * (it.2 : ℚ) := by nlinarith
    have h2 := ih (fun x hx => hOK x (List.mem_cons_of_mem it hx))
      (fun x hx => hq x (List.mem_cons_of_mem it hx))
    linarith

theorem itemsSub_pos {items : List (Product × ℤ)}
    (hOK : ∀ it ∈ items, ProductOK it.1) (hq : ∀ it ∈ items, 1 ≤ it.2)
    (hne : items ≠ []) : 0 < itemsSub items := by
  match items with
  | [] => exact absurd rfl hne
  | it :: rest =>
    unfold itemsSub
    simp only [List.map_cons, List.sum_cons]
    have hp := (hOK it (List.mem_cons_self it rest)).2.1
    have hq1 : (1 : ℚ) ≤ (it.2 : ℚ) := by exact_mod_cast hq it (List.mem_cons_self it rest)
    have h1 : 0 < it.1.unit_price * (it.2 : ℚ) := by nlinarith
    have h2 : 0 ≤ itemsSub rest := itemsSub_nonneg
      (fun x hx => hOK x (List.mem_cons_of_mem it hx))
      (fun x hx => hq x (List.mem_cons_of_mem it hx))
    unfold itemsSub at h2
    linarith

/-! Lemmas about the weighted random selector loop. -/

theorem wsum_zero (ws : List ℕ) : wsum ws 0 = 0 := by simp [wsum]

theorem wsum_succ {ws : List ℕ} {j : ℕ} (h : j < ws.length) :
    wsum ws (j + 1) = wsum ws j + ((ws.getD j 0 : ℕ) : ℚ) := by
  unfold wsum
  rw [List.sum_take_succ ws j h, List.getD_eq_getElem ws 0 h]
  push_cast
  ring

theorem wsum_le_succ (ws : List ℕ) (j : ℕ) : wsum ws j ≤ wsum ws (j + 1) := by
  rcases lt_or_ge j ws.length with h | h
  · rw [wsum_succ h]
    have : (0 : ℚ) ≤ ((ws.getD j 0 : ℕ) : ℚ) := by positivity
    linarith
  · unfold wsum
    rw [List.take_of_length_le h, List.take_of_length_le (by omega)]

theorem wsum_mono (ws : List ℕ) {j j' : ℕ} (h : j ≤ j') : wsum ws j ≤ wsum ws j' := by
  induction j' with
  | zero =>
    have : j = 0 := by omega
    rw [this]
  | succ n ih =>
    rcases Nat.lt_or_ge j (n + 1) with h' | h'
    · exact le_trans (ih (by omega)) (wsum_le_succ ws n)
    · have : j = n + 1 := by omega
      rw [this]

theorem wrGo_spec :
    ∀ (ws : List ℕ) (r : ℚ) (i : ℕ) (fb : ℤ), 0 ≤ r → r < (ws.sum : ℚ) →
      ∃ j : ℕ, wrGo r ws i fb = ((i + j : ℕ) : ℤ) ∧ j < ws.length ∧
        wsum ws j ≤ r ∧ r < wsum ws j + ((ws.getD j 0 : ℕ) : ℚ) := by
  intro ws
  induction ws with
  | nil =>
    intro r i fb h0 h1
    simp only [List.sum_nil, Nat.cast_zero] at h1
    linarith
  | cons w rest ih =>
    intro r i fb h0 h1
    by_cases hw : r < (w : ℚ)
    · refine ⟨0, ?_, by simp, ?_, ?_⟩
      · simp [wrGo, hw]
      · rw [wsum_zero]; exact h0
      · rw [wsum_zero]
        simpa using hw
    · push_neg at hw
      have h0' : 0 ≤ r - (w : ℚ) := by linarith
      have h1' : r - (w : ℚ) < (rest.sum : ℚ) := by
        rw [List.sum_cons, Nat.cast_add] at h1
        linarith
      obtain ⟨j, hj1, hj2, hj3, hj4⟩ := ih (r - w) (i + 1) fb h0' h1'
      have hws : wsum (w :: rest) (j + 1) = (w : ℚ) + wsum rest j := by
        unfold wsum
        rw [List.take_succ_cons, List.sum_cons]
        push_cast
        ring
      refine ⟨j + 1, ?_, by simpa using hj2, ?_, ?_⟩
      · rw [show wrGo r (w :: rest) i fb = wrGo (r - w) rest (i + 1) fb by
          simp [wrGo, not_lt.mpr hw], hj1]
        push_cast
        ring
      · rw [hws]
        linarith
      · rw [hws, List.getD_cons_succ]
        linarith

theorem wrGo_fallback :
    ∀ (ws : List ℕ) (r : ℚ) (i : ℕ) (fb : ℤ), (ws.sum : ℚ) ≤ r →
      wrGo r ws i fb = fb := by
  intro ws
  induction ws with
  | nil => intro r i fb h; rfl
  | cons w rest ih =>
    intro r i fb h
    rw [List.sum_cons, Nat.cast_add] at h
    have hrest : (0 : ℚ) ≤ (rest.sum : ℚ) := by positivity
    have hw : ¬ r < (w : ℚ) := by push_neg; linarith
    rw [show wrGo r (w :: rest) i fb = wrGo (r - w) rest (i + 1) fb by simp [wrGo, hw]]
    exact ih (r - w) (i + 1) fb (by linarith)

theorem wrGo_all_zero :
    ∀ (ws : List ℕ) (i : ℕ) (fb : ℤ), (∀ w ∈ ws, w = 0) → wrGo 0 ws i fb = fb := by
  intro ws
  induction ws with
  | nil => intro i fb h; rfl
  | cons w rest ih =>
    intro i fb h
    have hw0 : w = 0 := h w (List.mem_cons_self w rest)
    rw [show wrGo (0 : ℚ) (w :: rest) i fb = wrGo ((0 : ℚ) - w) rest (i + 1) fb by
      simp [wrGo, hw0]]
    rw [hw0]
    simp only [Nat.cast_zero, sub_zero]
    exact ih (i + 1) fb fun x hx => h x (List.mem_cons_of_mem w hx)

/-! Shared helpers for instantiating the claim theorems on a concrete
run. -/

theorem getD_zero_mem {α : Type} (l : List α) (d : α) (h : l ≠ []) : l.getD 0 d ∈ l := by
  match l with
  | [] => exact absurd rfl h
  | x :: xs => exact List.mem_cons_self x xs

theorem valid_sHalf : Valid sHalf := fun n => ⟨by norm_num [sHalf], by norm_num [sHalf]⟩

theorem valid_getD_list (l : List ℚ) (h : ∀ q ∈ l, 0 ≤ q ∧ q < 1) :
    Valid (fun n => l.getD n 0) := by
  intro n
  show 0 ≤ l.getD n 0 ∧ l.getD n 0 < 1
  rcases lt_or_ge n l.length with hn | hn
  · rw [List.getD_eq_getElem l 0 hn]
    exact h _ (List.getElem_mem hn)
  · rw [List.getD_eq_default l 0 hn]
    norm_num

theorem valid_sCE7 : Valid sCE7 :=
  valid_getD_list _ (by intro q hq; fin_cases hq <;> norm_num)

theorem genOrdersLoop_length {s : ℕ → ℚ} {c : Customer} {acq : ℚ} {b : Bool} :
    ∀ (n oid k : ℕ), (genOrdersLoop s c acq b n oid k).1.length = n := by
  intro n
  induction n with
  | zero => intro oid k; rfl
  | succ n ih => intro oid k; simp only [genOrdersLoop, List.length_cons, ih]

theorem genOrdersForCustomer_ne_nil {s : ℕ → ℚ} (hs : Valid s) (c : Customer)
    (oid k : ℕ) : (genOrdersForCustomer s c oid k).1 ≠ [] := by
  intro h
  have hlen : (genOrdersForCustomer s c oid k).1.length =
      (if c.segment == "B2B" then (randint s 12 36 k).1
       else if c.status == "Active" then (randint s 2 10 k).1
       else if c.status == "Churned" then (randint s 1 3 k).1
       else (randint s 2 7 k).1).toNat := by
    unfold genOrdersForCustomer
    exact genOrdersLoop_length _ _ _
  rw [h] at hlen
  simp only [List.length_nil] at hlen
  have hpos : 1 ≤ (if c.segment == "B2B" then (randint s 12 36 k).1
       else if c.status == "Active" then (randint s 2 10 k).1
       else if c.status == "Churned" then (randint s 1 3 k).1
       else (randint s 2 7 k).1) := by
    split_ifs
    · have := (randint_bounds hs (by norm_num : (12:ℤ) ≤ 36) k).1
      omega
    · have := (randint_bounds hs (by norm_num : (2:ℤ) ≤ 10) k).1
      omega
    · have := (randint_bounds hs (by norm_num : (1:ℤ) ≤ 3) k).1
      omega
    · have := (randint_bounds hs (by norm_num : (2:ℤ) ≤ 7) k).1
      omega
  omega

theorem generate_orders_cons_ne_nil {s : ℕ → ℚ} (hs : Valid s) (c : Customer)
    (cs : List Customer) (oid k : ℕ) : (generate_orders s (c :: cs) oid k).1 ≠ [] := by
  unfold generate_orders
  simp only []
  intro h
  exact genOrdersForCustomer_ne_nil hs c oid k (List.append_eq_nil.mp h).1

/-! The claims. -/

/-- Claim C2 (confirmed): for every generated order, the stored
total_cogs field is null if and only if the stored profit field is null;
the 3% injection nulls both together and both are set otherwise. -/
theorem claim_C2 {s : ℕ → ℚ} {a b : ℕ} {o : Order}
    (ho : o ∈ (generateAll s a b).orders) :
    o.total_cogs = none ↔ o.profit = none := by
  obtain ⟨c, _, oid', k', rfl⟩ := generateAll_orders_mem ho
  obtain ⟨items, _, _, _, _, _, _, hiff, _⟩ :=
    genOrder_char s c (acqEff c) (c.segment == "B2B") oid' k'
  exact hiff

/-- Claim C4 (confirmed): generation is a deterministic function of the
random stream and the two population-size parameters; two runs with
equal stream and equal parameters produce identical product, customer,
order and line-item tables. -/
theorem claim_C4 (s₁ s₂ : ℕ → ℚ) (a₁ b₁ a₂ b₂ : ℕ)
    (hs : s₁ = s₂) (ha : a₁ = a₂) (hb : b₁ = b₂) :
    (generateAll s₁ a₁ b₁).products = (generateAll s₂ a₂ b₂).products ∧
    (generateAll s₁ a₁ b₁).customers = (generateAll s₂ a₂ b₂).customers ∧
    (generateAll s₁ a₁ b₁).orders = (generateAll s₂ a₂ b₂).orders ∧
    (generateAll s₁ a₁ b₁).line_items = (generateAll s₂ a₂ b₂).line_items := by
  subst hs
  subst ha
  subst hb
  exact ⟨rfl, rfl, rfl, rfl⟩

/-- Claim C8 (confirmed): random_date is total; when end < start the
negative floored day span still yields a result at or before start, and
when start ≤ end the result lies in the closed interval. -/
theorem claim_C8 (s : ℕ → ℚ) (k : ℕ) (a e : ℚ) (h0 : 0 ≤ s k) (h1 : s k < 1) :
    (e < a → (random_date s a e k).1 ≤ a) ∧
    (a ≤ e → a ≤ (random_date s a e k).1 ∧ (random_date s a e k).1 ≤ e) := by
  constructor
  · intro hea
    unfold random_date
    simp only []
    have hfl : ⌊e - a⌋ ≤ -1 := by
      have : ⌊e - a⌋ < 0 := Int.floor_lt.mpr (by push_cast; linarith)
      omega
    have hflq : ((⌊e - a⌋ : ℤ) : ℚ) ≤ 0 := by exact_mod_cast le_trans hfl (by norm_num)
    have := mul_nonpos_of_nonneg_of_nonpos h0 hflq
    linarith
  · intro hae
    exact random_date_bounds k h0 h1 hae

/-- Claim C9 (confirmed): line-item cogs and profit are never null; the
emission loop computes them from the raw (pre-null) per-item values, so
the order-level paired nulling never propagates to the line-item grain
(in particular this holds when the parent order's total_cogs is null). -/
theorem claim_C9 {s : ℕ → ℚ} {a b : ℕ} {pr : Order × List LineItem}
    (hpr : pr ∈ (generateAll s a b).ordersGrouped) :
    ∀ li ∈ pr.2, (∃ cq : ℚ, li.cogs = some cq) ∧ (∃ pq : ℚ, li.profit = some pq) := by
  obtain ⟨c, _, oid', k', hpr'⟩ := generateAll_grouped_mem hpr
  obtain ⟨items, _, _, _, _, _, _, _, _, _, hlis⟩ :=
    genOrder_char s c (acqEff c) (c.segment == "B2B") oid' k'
  intro li hli
  rw [hpr'] at hli
  simp only at hli
  rw [hlis] at hli
  obtain ⟨it, _, _, _, _, hcogs, hprofit, _⟩ := mkLineItems_mem hli
  exact ⟨⟨_, hcogs⟩, ⟨_, hprofit⟩⟩

/-- Claim C3 (confirmed): every line item of every generated order
stores the rounded values of: its raw subtotal, the discount allocated
proportionally to its share of the raw order subtotal
(item_discount = item_subtotal / order_subtotal * order_discount_amount,
over pre-rounding values), revenue = subtotal - discount, and
profit = revenue - cogs; the order's stored subtotal and discount are
the rounds of the same raw S and D. -/
theorem claim_C3 {s : ℕ → ℚ} {a b : ℕ} {pr : Order × List LineItem}
    (hpr : pr ∈ (generateAll s a b).ordersGrouped) :
    ∃ (items : List (Product × ℤ)) (S D : ℚ),
      S = itemsSub items ∧
      D = S * ((pr.1.discount_percent : ℚ) / 100) ∧
      pr.1.subtotal = round2 S ∧
      pr.1.discount_amount = round2 D ∧
      pr.2.length = items.length ∧
      ∀ li ∈ pr.2, ∃ it ∈ items,
        li.subtotal = round2 (it.1.unit_price * (it.2 : ℚ)) ∧
        li.discount_amount = round2 (it.1.unit_price * (it.2 : ℚ) / S * D) ∧
        li.revenue = round2 (it.1.unit_price * (it.2 : ℚ) -
          it.1.unit_price * (it.2 : ℚ) / S * D) ∧
        li.cogs = some (round2 (it.1.avg_cogs * (it.2 : ℚ))) ∧
        li.profit = some (round2 (it.1.unit_price * (it.2 : ℚ) -
          it.1.unit_price * (it.2 : ℚ) / S * D - it.1.avg_cogs * (it.2 : ℚ))) := by
  obtain ⟨cu, _, oid', k', hpr'⟩ := generateAll_grouped_mem hpr
  have hpr1 : pr.1 = (genOrder s cu (acqEff cu) (cu.segment == "B2B") oid' k').1 := by
    rw [hpr']
  have hpr2 : pr.2 = (genOrder s cu (acqEff cu) (cu.segment == "B2B") oid' k').2.1 := by
    rw [hpr']
  obtain ⟨items, hOK, _, _, hsub, hdisc, _, _, _, _, hlis⟩ :=
    genOrder_char s cu (acqEff cu) (cu.segment == "B2B") oid' k'
  refine ⟨items, itemsSub items,
    itemsSub items * ((pr.1.discount_percent : ℚ) / 100), rfl, rfl, ?_, ?_, ?_, ?_⟩
  · rw [hpr1]
    exact hsub
  · rw [hpr1]
    exact hdisc
  · rw [hpr2, hlis, mkLineItems_length]
  · intro li hli
    rw [hpr2, hlis] at hli
    obtain ⟨it, hit, h1, h2, h3, h4, h5, _⟩ := mkLineItems_mem hli
    rw [hpr1]
    exact ⟨it, hit, h1, h2, h3, h4, h5⟩

/-- Claim C5 (confirmed): for a draw u in [0,1) over weights with
positive total (r = u * total in [0, total)), weighted_random returns
the unique index i with prefix-sum(i) ≤ r < prefix-sum(i) + weight i,
hence an index in [0, len); with weights [0,0,5] it always returns index
2; and the last-index fallback after exhausting the sequence is
preserved. -/
theorem claim_C5 :
    (∀ (u : ℚ) (ws : List ℕ), 0 ≤ u → u < 1 → 0 < ws.sum →
      ∃ i : ℕ, weighted_random u ws = (i : ℤ) ∧ i < ws.length ∧
        wsum ws i ≤ u * (ws.sum : ℚ) ∧
        u * (ws.sum : ℚ) < wsum ws i + ((ws.getD i 0 : ℕ) : ℚ) ∧
        ∀ j : ℕ, j < ws.length → wsum ws j ≤ u * (ws.sum : ℚ) →
          u * (ws.sum : ℚ) < wsum ws j + ((ws.getD j 0 : ℕ) : ℚ) → j = i) ∧
    (∀ u : ℚ, 0 ≤ u → weighted_random u [0, 0, 5] = 2) ∧
    (∀ (r : ℚ) (ws : List ℕ) (i : ℕ), (ws.sum : ℚ) ≤ r →
      wrGo r ws i ((ws.length : ℤ) - 1) = (ws.length : ℤ) - 1) := by
  refine ⟨?_, ?_, ?_⟩
  · intro u ws hu0 hu1 hsum
    have hq : (0 : ℚ) < (ws.sum : ℚ) := by exact_mod_cast hsum
    have hr0 : 0 ≤ u * (ws.sum : ℚ) := mul_nonneg hu0 (le_of_lt hq)
    have hrlt : u * (ws.sum : ℚ) < (ws.sum : ℚ) := by
      calc u * (ws.sum : ℚ) < 1 * (ws.sum : ℚ) := mul_lt_mul_of_pos_right hu1 hq
        _ = (ws.sum : ℚ) := one_mul _
    obtain ⟨j, hj1, hj2, hj3, hj4⟩ :=
      wrGo_spec ws (u * (ws.sum : ℚ)) 0 ((ws.length : ℤ) - 1) hr0 hrlt
    refine ⟨j, ?_, hj2, hj3, hj4, ?_⟩
    · unfold weighted_random
      rw [hj1]
      norm_num
    intro j' hlen' hle' hlt'
    rcases lt_trichotomy j' j with h | h | h
    · exfalso
      have h1 : wsum ws (j' + 1) ≤ wsum ws j := wsum_mono ws (by omega)
      have h2 := wsum_succ hlen'
      linarith
    · exact h
    · exfalso
      have h1 : wsum ws (j + 1) ≤ wsum ws j' := wsum_mono ws (by omega)
      have h2 := wsum_succ hj2
      linarith
  · intro u hu
    have h5 : (0 : ℚ) ≤ u * 5 := mul_nonneg hu (by norm_num)
    unfold weighted_random
    simp only [wrGo, List.sum_cons, List.sum_nil, List.length_cons, List.length_nil]
    norm_num
    split_ifs with h1
    · exfalso; linarith
    · rfl
  · intro r ws i h
    exact wrGo_fallback ws r i _ h

/-- Core date bound for a single generated order: when the effective
acquisition day is an integer at or before the window end and the draws
are in contract, a non-null stored order date d satisfies
acq ≤ d ≤ acq + min(floor(winEnd - acq), 730) ≤ winEnd. -/
theorem genOrder_date_core {s : ℕ → ℚ} (hs : Valid s) {acq : ℚ} (z : ℤ)
    (hz : acq = (z : ℚ)) (hacq : acq ≤ winEnd)
    (cust : Customer) (b : Bool) (oid k : ℕ) :
    ∀ d : ℤ, (genOrder s cust acq b oid k).1.order_date = some d →
      acq ≤ (d : ℚ) ∧ (d : ℚ) ≤ acq + ((min ⌊winEnd - acq⌋ 730 : ℤ) : ℚ) ∧
      (d : ℚ) ≤ winEnd := by
  obtain ⟨items, _, _, hod, _⟩ := genOrder_char s cust acq b oid k
  intro d hd
  rcases hod with h | h
  · rw [hd] at h
    exact absurd h (by simp)
  · rw [hd] at h
    have hdval : d = ⌊acq + s k * ((min ⌊winEnd - acq⌋ 730 : ℤ) : ℚ)⌋ :=
      Option.some.inj h
    obtain ⟨h0, h1⟩ := hs k
    have hm0 : (0 : ℤ) ≤ min ⌊winEnd - acq⌋ 730 := by
      have hfl : (0 : ℤ) ≤ ⌊winEnd - acq⌋ := Int.floor_nonneg.mpr (by linarith)
      omega
    have hmq : (0 : ℚ) ≤ ((min ⌊winEnd - acq⌋ 730 : ℤ) : ℚ) := by exact_mod_cast hm0
    have hub : s k * ((min ⌊winEnd - acq⌋ 730 : ℤ) : ℚ) ≤
        ((min ⌊winEnd - acq⌋ 730 : ℤ) : ℚ) := mul_le_of_le_one_left hmq (le_of_lt h1)
    have hlb : 0 ≤ s k * ((min ⌊winEnd - acq⌋ 730 : ℤ) : ℚ) := mul_nonneg h0 hmq
    have hfloor := Int.floor_le (acq + s k * ((min ⌊winEnd - acq⌋ 730 : ℤ) : ℚ))
    refine ⟨?_, ?_, ?_⟩
    · rw [hdval]
      have hxq : (z : ℚ) ≤ acq + s k * ((min ⌊winEnd - acq⌋ 730 : ℤ) : ℚ) := by
        rw [← hz]
        linarith
      have hle : z ≤ ⌊acq + s k * ((min ⌊winEnd - acq⌋ 730 : ℤ) : ℚ)⌋ :=
        Int.le_floor.mpr hxq
      calc acq = (z : ℚ) := hz
        _ ≤ ((⌊acq + s k * ((min ⌊winEnd - acq⌋ 730 : ℤ) : ℚ)⌋ : ℤ) : ℚ) := by
            exact_mod_cast hle
    · rw [hdval]
      linarith
    · rw [hdval]
      have hmin : ((min ⌊winEnd - acq⌋ 730 : ℤ) : ℚ) ≤ ((⌊winEnd - acq⌋ : ℤ) : ℚ) := by
        have : min ⌊winEnd - acq⌋ 730 ≤ ⌊winEnd - acq⌋ := min_le_left _ _
        exact_mod_cast this
      have hfl2 : ((⌊winEnd - acq⌋ : ℤ) : ℚ) ≤ winEnd - acq := Int.floor_le _
      linarith

/-- Claim C6 (confirmed): every non-null stored order date lies between
the customer's effective acquisition day (the 2023-01-01 fallback when
the persisted acquisition date is null) and that day plus
min(days to window end, 730), hence never past 2024-11-30; and order
generation leaves the customers table exactly as produced by
generate_customers (the fallback never touches the stored record). -/
theorem claim_C6 :
    (∀ (s : ℕ → ℚ) (c : Customer) (oid k : ℕ), Valid s → acqEff c ≤ winEnd →
      ∀ pr ∈ (genOrdersForCustomer s c oid k).1, ∀ d : ℤ,
        pr.1.order_date = some d →
          acqEff c ≤ (d : ℚ) ∧
          (d : ℚ) ≤ acqEff c + ((min ⌊winEnd - acqEff c⌋ 730 : ℤ) : ℚ) ∧
          (d : ℚ) ≤ winEnd) ∧
    (∀ (s : ℕ → ℚ) (a b : ℕ), Valid s →
      ∀ o ∈ (generateAll s a b).orders, ∀ d : ℤ,
        o.order_date = some d → (d : ℚ) ≤ winEnd) ∧
    (∀ (s : ℕ → ℚ) (a b : ℕ),
      (generateAll s a b).customers = (generate_customers s a b 0).1) := by
  refine ⟨?_, ?_, ?_⟩
  · intro s c oid k hs hacq pr hpr d hd
    unfold genOrdersForCustomer at hpr
    obtain ⟨oid', k', hpr'⟩ := genOrdersLoop_mem hpr
    obtain ⟨z, hz⟩ := acqEff_int c
    have hd' : (genOrder s c (acqEff c) (c.segment == "B2B") oid' k').1.order_date =
        some d := by
      rw [hpr'] at hd
      exact hd
    exact genOrder_date_core hs z hz hacq c (c.segment == "B2B") oid' k' d hd'
  · intro s a b hs o ho d hd
    obtain ⟨c, hc, oid', k', rfl⟩ := generateAll_orders_mem ho
    obtain ⟨z, hz⟩ := acqEff_int c
    have hacq := generate_customers_acq_le hs c hc
    exact (genOrder_date_core hs z hz hacq c (c.segment == "B2B") oid' k' d hd).2.2
  · intro s a b
    rfl

/-- Claim C7 (amended; the original ±0.01 tolerance fails for revenue,
see the counterexample): for every generated order, the summed rounded
line-item subtotals and cogs reproduce the stored order subtotal and
total_cogs exactly, and the summed rounded line-item revenues reproduce
the stored revenue to within 0.045 = (8+1) half-cents (an order has at
most 8 line items, each independently rounded). -/
theorem claim_C7_amended {s : ℕ → ℚ} (hs : Valid s) {a b : ℕ}
    {pr : Order × List LineItem} (hpr : pr ∈ (generateAll s a b).ordersGrouped) :
    (pr.2.map LineItem.subtotal).sum = pr.1.subtotal ∧
    (∀ c, pr.1.total_cogs = some c → (pr.2.map fun li => li.cogs.getD 0).sum = c) ∧
    pr.2.length = pr.1.num_items ∧
    pr.1.num_items ≤ 8 ∧
    |(pr.2.map LineItem.revenue).sum - pr.1.revenue| ≤ 9/200 := by
  obtain ⟨cu, _, oid', k', hpr'⟩ := generateAll_grouped_mem hpr
  have hpr1 : pr.1 = (genOrder s cu (acqEff cu) (cu.segment == "B2B") oid' k').1 := by
    rw [hpr']
  have hpr2 : pr.2 = (genOrder s cu (acqEff cu) (cu.segment == "B2B") oid' k').2.1 := by
    rw [hpr']
  obtain ⟨items, hOK, hval, _, hsub, _, hrev, _, hsome, hnum, hlis⟩ :=
    genOrder_char s cu (acqEff cu) (cu.segment == "B2B") oid' k'
  obtain ⟨hqty, hlen1, hlen8⟩ := hval hs
  have hCS : Cents (itemsSub items) := cents_itemsSub hOK
  refine ⟨?_, ?_, ?_, ?_, ?_⟩
  · rw [hpr2, hlis, mkLineItems_map_subtotal, sum_round2_sub hOK, hpr1, hsub,
      round2_cents hCS]
  · intro c hc
    rw [hpr1] at hc
    obtain ⟨hceq, _⟩ := hsome c hc
    rw [hpr2, hlis, mkLineItems_map_cogs, sum_round2_cogs hOK, hceq,
      round2_cents (evenCents_cents (evenCents_itemsCogs hOK))]
  · rw [hpr2, hlis, mkLineItems_length, hpr1, hnum]
  · rw [hpr1, hnum]
    exact hlen8
  · rw [hpr2, hlis, mkLineItems_map_revenue, hpr1, hrev]
    have hne : items ≠ [] := by
      intro hnil
      rw [hnil] at hlen1
      simp at hlen1
    have hSne : itemsSub items ≠ 0 := ne_of_gt (itemsSub_pos hOK hqty hne)
    have hsumr := sum_item_revenue hSne
      (itemsSub items *
        (((genOrder s cu (acqEff cu) (cu.segment == "B2B") oid' k').1.discount_percent : ℚ)
          / 100))
    have hmm : (items.map fun it => it.1.unit_price * (it.2 : ℚ) -
          it.1.unit_price * (it.2 : ℚ) / itemsSub items *
            (itemsSub items *
              (((genOrder s cu (acqEff cu) (cu.segment == "B2B") oid' k').1.discount_percent
                : ℚ) / 100))).map round2 =
        items.map fun it => round2 (it.1.unit_price * (it.2 : ℚ) -
          it.1.unit_price * (it.2 : ℚ) / itemsSub items *
            (itemsSub items *
              (((genOrder s cu (acqEff cu) (cu.segment == "B2B") oid' k').1.discount_percent
                : ℚ) / 100))) := by
      rw [List.map_map]
      rfl
    rw [← hmm]
    have hbound := sum_map_round2_bound (items.map fun it =>
      it.1.unit_price * (it.2 : ℚ) -
        it.1.unit_price * (it.2 : ℚ) / itemsSub items *
          (itemsSub items *
            (((genOrder s cu (acqEff cu) (cu.segment == "B2B") oid' k').1.discount_percent
              : ℚ) / 100)))
    rw [hsumr, List.length_map] at hbound
    have hlen : ((items.length + 1 : ℕ) : ℚ) / 200 ≤ 9/200 := by
      have h9q : ((items.length + 1 : ℕ) : ℚ) ≤ 9 := by
        have h9 : items.length + 1 ≤ 9 := by omega
        exact_mod_cast h9
      linarith
    exact le_trans hbound hlen

/-- Claim C10 (confirmed): on a non-empty all-zero weight sequence,
weighted_random does not fail and deterministically returns the last
index, len(weights) - 1, whatever the draw. -/
theorem claim_C10 (u : ℚ) (ws : List ℕ) (hne : ws ≠ []) (hz : ∀ w ∈ ws, w = 0) :
    weighted_random u ws = (ws.length : ℤ) - 1 := by
  have hsum : ws.sum = 0 := List.sum_eq_zero hz
  unfold weighted_random
  rw [hsum]
  rw [show u * ((0 : ℕ) : ℚ) = 0 by push_cast; ring]
  exact wrGo_all_zero ws 0 _ hz

/-! Counterexample to the claim that fails on the code as originally
stated. -/

set_option maxHeartbeats 8000000 in
/-- Claim C7, counterexample to the original ±0.01 tolerance: in the run
on stream sCE7 (one B2B customer; first order = eight line items of
P001 with quantity 11 each at a 5% discount), every raw line-item
revenue is 198.4455, rounding up to 198.45; the rounded line items sum
to 1587.60 while the stored order revenue is round2(1587.564) =
1587.56, a gap of 0.04 > 0.01. -/
theorem claim_C7_counterexample :
    (generateAll sCE7 0 1).ordersGrouped ≠ [] ∧
    1/100 < |((((generateAll sCE7 0 1).ordersGrouped.getD 0 dummyGrp).2.map
        LineItem.revenue).sum -
      ((generateAll sCE7 0 1).ordersGrouped.getD 0 dummyGrp).1.revenue)| := by
  constructor
  · show ¬ ((generate_orders sCE7 ((genB2BCustomer sCE7 1 0).1 :: []) 1
      (genB2BCustomer sCE7 1 0).2).1 = [])
    exact generate_orders_cons_ne_nil valid_sCE7 _ _ _ _
  · have hval : ((((generateAll sCE7 0 1).ordersGrouped.getD 0 dummyGrp).2.map
        LineItem.revenue).sum -
        ((generateAll sCE7 0 1).ordersGrouped.getD 0 dummyGrp).1.revenue) = 1/25 := by
      norm_num [generateAll, generate_customers, genD2CList, genB2BList, genB2BCustomer,
        generate_orders, genOrdersForCustomer, genOrdersLoop, genOrder, genItems, qtyDraw,
        mkLineItems, random_date, randint, weightedDraw, weighted_random, wrGo, pyGet,
        acqEff, round2, rne, itemsSub, itemsCogs, sCE7, products, prodDefault, b2bStart,
        winEnd, d2cStart, fallbackAcq, Int.toNat, Int.fract, List.getD]
    rw [hval]
    rw [show |(1 : ℚ)/25| = 1/25 from abs_of_pos (by norm_num)]
    norm_num

/-! Helper facts for instantiating the claim theorems on the concrete
sHalf run (one D2C customer, two generated orders). -/

theorem sHalf_grouped_ne_nil : (generateAll sHalf 1 0).ordersGrouped ≠ [] := by
  show ¬ ((generate_orders sHalf ((genD2CCustomer sHalf 1 0).1 :: []) 1
    (genD2CCustomer sHalf 1 0).2).1 = [])
  exact generate_orders_cons_ne_nil valid_sHalf _ _ _ _

theorem sHalf_orders_ne_nil : (generateAll sHalf 1 0).orders ≠ [] := by
  unfold Dataset.orders
  intro h
  exact sHalf_grouped_ne_nil (List.map_eq_nil_iff.mp h)

/-! Witnesses: each claim theorem with a hypothesis applied at a
concrete input. -/

/-- Witness for claim_C2 on a concrete generated order. -/
theorem claim_C2_witness :
    ((generateAll sHalf 1 0).orders.getD 0 dummyOrder ∈ (generateAll sHalf 1 0).orders) ∧
    (((generateAll sHalf 1 0).orders.getD 0 dummyOrder).total_cogs = none ↔
      ((generateAll sHalf 1 0).orders.getD 0 dummyOrder).profit = none) := by
  have hm : (generateAll sHalf 1 0).orders.getD 0 dummyOrder ∈
      (generateAll sHalf 1 0).orders := getD_zero_mem _ _ sHalf_orders_ne_nil
  exact ⟨hm, claim_C2 hm⟩

/-- Witness for claim_C3 on a concrete generated order. -/
theorem claim_C3_witness :
    ((generateAll sHalf 1 0).ordersGrouped.getD 0 dummyGrp ∈
      (generateAll sHalf 1 0).ordersGrouped) ∧
    (∃ (items : List (Product × ℤ)) (S D : ℚ),
      S = itemsSub items ∧
      D = S * ((((generateAll sHalf 1 0).ordersGrouped.getD 0 dummyGrp).1.discount_percent
        : ℚ) / 100) ∧
      ((generateAll sHalf 1 0).ordersGrouped.getD 0 dummyGrp).1.subtotal = round2 S ∧
      ((generateAll sHalf 1 0).ordersGrouped.getD 0 dummyGrp).1.discount_amount =
        round2 D ∧
      ((generateAll sHalf 1 0).ordersGrouped.getD 0 dummyGrp).2.length = items.length ∧
      ∀ li ∈ ((generateAll sHalf 1 0).ordersGrouped.getD 0 dummyGrp).2, ∃ it ∈ items,
        li.subtotal = round2 (it.1.unit_price * (it.2 : ℚ)) ∧
        li.discount_amount = round2 (it.1.unit_price * (it.2 : ℚ) / S * D) ∧
        li.revenue = round2 (it.1.unit_price * (it.2 : ℚ) -
          it.1.unit_price * (it.2 : ℚ) / S * D) ∧
        li.cogs = some (round2 (it.1.avg_cogs * (it.2 : ℚ))) ∧
        li.profit = some (round2 (it.1.unit_price * (it.2 : ℚ) -
          it.1.unit_price * (it.2 : ℚ) / S * D - it.1.avg_cogs * (it.2 : ℚ)))) := by
  have hm : (generateAll sHalf 1 0).ordersGrouped.getD 0 dummyGrp ∈
      (generateAll sHalf 1 0).ordersGrouped := getD_zero_mem _ _ sHalf_grouped_ne_nil
  exact ⟨hm, claim_C3 hm⟩

/-- Witness for claim_C4 on a concrete run. -/
theorem claim_C4_witness :
    (sHalf = sHalf ∧ (1 : ℕ) = 1 ∧ (0 : ℕ) = 0) ∧
    ((generateAll sHalf 1 0).products = (generateAll sHalf 1 0).products ∧
     (generateAll sHalf 1 0).customers = (generateAll sHalf 1 0).customers ∧
     (generateAll sHalf 1 0).orders = (generateAll sHalf 1 0).orders ∧
     (generateAll sHalf 1 0).line_items = (generateAll sHalf 1 0).line_items) :=
  ⟨⟨rfl, rfl, rfl⟩, claim_C4 sHalf sHalf 1 0 1 0 rfl rfl rfl⟩

/-- Witness for claim_C5 at concrete draws and weights. -/
theorem claim_C5_witness :
    ((0 : ℚ) ≤ 1/2 ∧ (1 : ℚ)/2 < 1 ∧ 0 < ([1, 2, 3] : List ℕ).sum) ∧
    (∃ i : ℕ, weighted_random (1/2) [1, 2, 3] = (i : ℤ) ∧
      i < ([1, 2, 3] : List ℕ).length ∧
      wsum [1, 2, 3] i ≤ 1/2 * (([1, 2, 3] : List ℕ).sum : ℚ) ∧
      1/2 * (([1, 2, 3] : List ℕ).sum : ℚ) <
        wsum [1, 2, 3] i + ((([1, 2, 3] : List ℕ).getD i 0 : ℕ) : ℚ) ∧
      ∀ j : ℕ, j < ([1, 2, 3] : List ℕ).length →
        wsum [1, 2, 3] j ≤ 1/2 * (([1, 2, 3] : List ℕ).sum : ℚ) →
        1/2 * (([1, 2, 3] : List ℕ).sum : ℚ) <
          wsum [1, 2, 3] j + ((([1, 2, 3] : List ℕ).getD j 0 : ℕ) : ℚ) → j = i) ∧
    weighted_random (1/2) [0, 0, 5] = 2 ∧
    wrGo 7 [1, 2, 3] 0 ((([1, 2, 3] : List ℕ).length : ℤ) - 1) =
      (([1, 2, 3] : List ℕ).length : ℤ) - 1 := by
  refine ⟨⟨by norm_num, by norm_num, by norm_num⟩, ?_, ?_, ?_⟩
  · exact claim_C5.1 (1/2) [1, 2, 3] (by norm_num) (by norm_num) (by norm_num)
  · exact claim_C5.2.1 (1/2) (by norm_num)
  · exact claim_C5.2.2 7 [1, 2, 3] 0
      (by norm_num [List.sum_cons, List.sum_nil])

/-- Witness for claim_C6 at a concrete customer and run. -/
theorem claim_C6_witness :
    (Valid sHalf ∧ acqEff dummyCustomer ≤ winEnd) ∧
    (∀ pr ∈ (genOrdersForCustomer sHalf dummyCustomer 1 0).1, ∀ d : ℤ,
      pr.1.order_date = some d →
        acqEff dummyCustomer ≤ (d : ℚ) ∧
        (d : ℚ) ≤ acqEff dummyCustomer +
          ((min ⌊winEnd - acqEff dummyCustomer⌋ 730 : ℤ) : ℚ) ∧
        (d : ℚ) ≤ winEnd) ∧
    (∀ o ∈ (generateAll sHalf 1 0).orders, ∀ d : ℤ,
      o.order_date = some d → (d : ℚ) ≤ winEnd) ∧
    (generateAll sHalf 1 0).customers = (generate_customers sHalf 1 0 0).1 := by
  have hacq : acqEff dummyCustomer ≤ winEnd := by
    norm_num [acqEff, dummyCustomer, winEnd]
  exact ⟨⟨valid_sHalf, hacq⟩, claim_C6.1 sHalf dummyCustomer 1 0 valid_sHalf hacq,
    claim_C6.2.1 sHalf 1 0 valid_sHalf, claim_C6.2.2 sHalf 1 0⟩

/-- Witness for claim_C7_amended on a concrete generated order. -/
theorem claim_C7_witness :
    (Valid sHalf ∧
      (generateAll sHalf 1 0).ordersGrouped.getD 0 dummyGrp ∈
        (generateAll sHalf 1 0).ordersGrouped) ∧
    ((((generateAll sHalf 1 0).ordersGrouped.getD 0 dummyGrp).2.map
        LineItem.subtotal).sum =
      ((generateAll sHalf 1 0).ordersGrouped.getD 0 dummyGrp).1.subtotal ∧
    (∀ c, ((generateAll sHalf 1 0).ordersGrouped.getD 0 dummyGrp).1.total_cogs = some c →
      ((((generateAll sHalf 1 0).ordersGrouped.getD 0 dummyGrp).2.map
        fun li => li.cogs.getD 0).sum = c)) ∧
    ((generateAll sHalf 1 0).ordersGrouped.getD 0 dummyGrp).2.length =
      ((generateAll sHalf 1 0).ordersGrouped.getD 0 dummyGrp).1.num_items ∧
    ((generateAll sHalf 1 0).ordersGrouped.getD 0 dummyGrp).1.num_items ≤ 8 ∧
    |(((generateAll sHalf 1 0).ordersGrouped.getD 0 dummyGrp).2.map
        LineItem.revenue).sum -
      ((generateAll sHalf 1 0).ordersGrouped.getD 0 dummyGrp).1.revenue| ≤ 9/200) := by
  have hm : (generateAll sHalf 1 0).ordersGrouped.getD 0 dummyGrp ∈
      (generateAll sHalf 1 0).ordersGrouped := getD_zero_mem _ _ sHalf_grouped_ne_nil
  exact ⟨⟨valid_sHalf, hm⟩, claim_C7_amended valid_sHalf hm⟩

/-- Witness for claim_C8 at a concrete degenerate interval (end before
start). -/
theorem claim_C8_witness :
    (0 ≤ sHalf 0 ∧ sHalf 0 < 1) ∧
    (((0 : ℚ) < 1 → (random_date sHalf 1 0 0).1 ≤ 1) ∧
     ((1 : ℚ) ≤ 0 → 1 ≤ (random_date sHalf 1 0 0).1 ∧ (random_date sHalf 1 0 0).1 ≤ 0)) :=
  ⟨⟨by norm_num [sHalf], by norm_num [sHalf]⟩,
    claim_C8 sHalf 0 1 0 (by norm_num [sHalf]) (by norm_num [sHalf])⟩

/-- Witness for claim_C9 on a concrete generated order. -/
theorem claim_C9_witness :
    ((generateAll sHalf 1 0).ordersGrouped.getD 0 dummyGrp ∈
      (generateAll sHalf 1 0).ordersGrouped) ∧
    ∀ li ∈ ((generateAll sHalf 1 0).ordersGrouped.getD 0 dummyGrp).2,
      (∃ cq : ℚ, li.cogs = some cq) ∧ (∃ pq : ℚ, li.profit = some pq) := by
  have hm : (generateAll sHalf 1 0).ordersGrouped.getD 0 dummyGrp ∈
      (generateAll sHalf 1 0).ordersGrouped := getD_zero_mem _ _ sHalf_grouped_ne_nil
  exact ⟨hm, claim_C9 hm⟩

/-- Witness for claim_C10 at a concrete all-zero weight list. -/
theorem claim_C10_witness :
    (([0, 0, 0] : List ℕ) ≠ [] ∧ ∀ w ∈ ([0, 0, 0] : List ℕ), w = 0) ∧
    weighted_random (1/3) [0, 0, 0] = ((([0, 0, 0] : List ℕ).length : ℤ) - 1) :=
  ⟨⟨by decide, by decide⟩, claim_C10 (1/3) [0, 0, 0] (by decide) (by decide)⟩

end Kikapu
